import Mathlib

/-!
Verification development for the deal-watching harness (`itests/kit/deals.go`).

We shallowly embed the asynchronous state-convergence watcher:
the predicate factories `DealState`, `DealSectorState`, `DealOn`
(values of type `DealStateCheck`), the sector correlation scan, the
polling converger `WaitDealStates`, and the event-driven converger
`WaitDealPublished`.

Modelling conventions:
- Content identifiers (`cid.Cid`), deal ids (`abi.DealID`) and sector
  numbers (`abi.SectorNumber`) are `Nat`; a sector state
  (`sealing.SectorState` / `api.SectorState`) is a `String`, as in Go.
- A `context.Context` is modelled by `Ctx` (a cancellation flag).  The Go
  code only ever passes the context through to collaborator queries, so
  every query function receives the `Ctx`.
- Collaborator queries (`ClientGetDealInfo`, `SectorsList`,
  `SectorsStatus`) are total functions of a `Collab` snapshot: we study
  runs in which the transport succeeds (a transport error makes
  `require.NoError` abort the whole run; no claim under study is about
  that path, and `MarketListIncompleteDeals` is used only for logging,
  so it is omitted).
- `t.Fatal` aborts the surrounding test: checks evaluate in
  `Except FatalError`, and an `error` result aborts the whole wait.
- Go map iteration of the pending set is order-nondeterministic; we fix
  a list order.  Deletion during iteration (`delete(todo, deal)`) is
  modelled by the pass returning the list of still-pending identities.
- The unbounded `for len(todo) > 0` loop is run on fuel (a pass bound);
  `.outOfFuel` means the loop was still running after that many passes.
  `time.Sleep(time.Second / 2)` is recorded by a sleep counter, and the
  number of completed passes is recorded alongside it.
-/

/-- Lifecycle states of a storage deal (`storagemarket.StorageDealStatus`). -/
inductive StorageDealStatus where
  | StorageDealUnknown
  | StorageDealProposalAccepted
  | StorageDealProposalRejected
  | StorageDealStaged
  | StorageDealSealing
  | StorageDealFinalizing
  | StorageDealActive
  | StorageDealExpired
  | StorageDealSlashed
  | StorageDealRejecting
  | StorageDealFailing
  | StorageDealCheckForAcceptance
  | StorageDealValidating
  | StorageDealTransferring
  | StorageDealWaitingForData
  | StorageDealPublish
  | StorageDealPublishing
  | StorageDealError
  | StorageDealAwaitingPreCommit
  deriving DecidableEq, Repr

/-- A content identifier (`cid.Cid`), abstracted to a number. -/
abbrev Cid := Nat

/-- A sector number (`abi.SectorNumber`).  `0` doubles as the zero value of
the Go type and hence as the "no correlated sector" sentinel. -/
abbrev SectorNumber := Nat

/-- The client's view of a deal (the fields of `api.DealInfo` that the
watcher reads: `State`, `Message`, `DealID`). -/
structure DealInfo where
  State : StorageDealStatus
  Message : String
  DealID : Nat
  deriving DecidableEq, Repr

/-- The sealing subsystem's view of a sector (the fields of
`api.SectorInfo` that the watcher reads: `State`, `Deals`). -/
structure SectorInfo where
  State : String
  Deals : List Nat
  deriving DecidableEq, Repr

/-- A miner-side deal record delivered on the `MarketGetDealUpdates`
subscription (`storagemarket.MinerDeal`: `ProposalCid`, `State`,
`Message`). -/
structure MinerDeal where
  ProposalCid : Cid
  State : StorageDealStatus
  Message : String
  deriving DecidableEq, Repr

/-- A `context.Context`, reduced to its cancellation flag.  The polling
converger never reads it; it only forwards it to queries. -/
structure Ctx where
  cancelled : Bool
  deriving DecidableEq, Repr

/-- The read-only query interface of the external collaborators, each
query receiving the context exactly as the Go call sites pass it. -/
structure Collab where
  clientGetDealInfo : Ctx → Cid → DealInfo
  sectorsList : Ctx → List SectorNumber
  sectorsStatus : Ctx → SectorNumber → SectorInfo

/-- Classified fatal outcomes of a wait (`t.Fatal` call sites). -/
inductive FatalError where
  | rejected
  | failing
  | errored (msg : String)
  | timeout
  deriving DecidableEq, Repr

/-- The three predicate factories of the harness, deeply embedded: every
`DealStateCheck` closure produced by the source is one of
`DealState(expect…)`, `DealSectorState(expect)`, `DealOn(cb, states…)`.
A callback is identified by a number; evaluation reports the callbacks
it fired. -/
inductive DealStateCheck where
  | dealState (expect : List StorageDealStatus)
  | dealSectorState (expect : String)
  | dealOn (cb : Nat) (states : List StorageDealStatus)
  deriving DecidableEq, Repr

/-- The linear scan `for _, state := range expect { if di.State == state
{ return true } }` of `DealState`. -/
def statusMem (st : StorageDealStatus) : List StorageDealStatus → Bool
  | [] => false
  | s :: rest => if st = s then true else statusMem st rest

/-- The body of a `DealState(expect…)` check: membership first, then the
fatal-state switch, else `false`. -/
def runDealState (expect : List StorageDealStatus) (di : DealInfo) :
    Except FatalError Bool :=
  if statusMem di.State expect then .ok true
  else
    match di.State with
    | .StorageDealProposalRejected => .error .rejected
    | .StorageDealFailing => .error .failing
    | .StorageDealError => .error (.errored di.Message)
    | _ => .ok false

/-- The body of a `DealSectorState(expect)` check: `false` at the sentinel
sector number `0`, otherwise compare the queried sector state. -/
def runDealSectorState (ctx : Ctx) (co : Collab) (expect : String)
    (sn : SectorNumber) : Bool :=
  if sn = 0 then false
  else decide ((co.sectorsStatus ctx sn).State = expect)

/-- The callback loop of `DealOn`: scan `state ...`, fire once on the
first match and `break`. -/
def dealOnFired (states : List StorageDealStatus) (st : StorageDealStatus) :
    Bool :=
  match states with
  | [] => false
  | s :: rest => if st = s then true else dealOnFired rest st

/-- Evaluate one `DealStateCheck` against a deal snapshot and a correlated
sector number, returning the boolean verdict and the callbacks fired, or
a fatal abort. -/
def evalCheck (ctx : Ctx) (co : Collab) (c : DealStateCheck) (di : DealInfo)
    (sn : SectorNumber) : Except FatalError (Bool × List Nat) :=
  match c with
  | .dealState expect =>
    match runDealState expect di with
    | .error e => .error e
    | .ok b => .ok (b, [])
  | .dealSectorState expect => .ok (runDealSectorState ctx co expect sn, [])
  | .dealOn cb states =>
    .ok (true, if dealOnFired states di.State then [cb] else [])

/-- The conjunction loop
`done := true; for _, check := range stateChecks { if !check(...) { done = false; break } }`:
evaluation stops at the first check returning `false`, and a fatal abort
propagates. -/
def evalChecks (ctx : Ctx) (co : Collab) (checks : List DealStateCheck)
    (di : DealInfo) (sn : SectorNumber) :
    Except FatalError (Bool × List Nat) :=
  match checks with
  | [] => .ok (true, [])
  | c :: rest =>
    match evalCheck ctx co c di sn with
    | .error e => .error e
    | .ok (true, f) =>
      match evalChecks ctx co rest di sn with
      | .error e => .error e
      | .ok (b, f') => .ok (b, f ++ f')
    | .ok (false, f) => .ok (false, f)

/-- The inner loop of the correlation scan:
`for _, dealId := range si.Deals { if dealId == di.DealID { ... } }`. -/
def listHas (l : List Nat) (x : Nat) : Bool :=
  match l with
  | [] => false
  | y :: rest => if y = x then true else listHas rest x

/-- The correlation scan of `WaitDealStates` (`sloop`): `ms` starts at the
zero value `0`; the first listed sector whose `Deals` contains the target
deal id is returned, else `0` stands. -/
def findDealSector (ctx : Ctx) (co : Collab) (sl : List SectorNumber)
    (dealId : Nat) : SectorNumber :=
  match sl with
  | [] => 0
  | s :: rest =>
    if listHas (co.sectorsStatus ctx s).Deals dealId then s
    else findDealSector ctx co rest dealId

/-- The per-identity body of a polling pass: fetch a fresh deal snapshot,
resolve the correlated sector, evaluate the check conjunction. -/
def processDeal (ctx : Ctx) (co : Collab) (checks : List DealStateCheck)
    (deal : Cid) : Except FatalError (Bool × List Nat) :=
  let di := co.clientGetDealInfo ctx deal
  let ms := findDealSector ctx co (co.sectorsList ctx) di.DealID
  evalChecks ctx co checks di ms

/-- One full pass of `for deal := range todo`: evaluate every pending
identity in order, drop the identities whose conjunction held, collect
fired callbacks; a fatal abort stops the pass. -/
def runPass (ctx : Ctx) (co : Collab) (checks : List DealStateCheck) :
    List Cid → Except FatalError (List Cid × List Nat)
  | [] => .ok ([], [])
  | d :: rest =>
    match processDeal ctx co checks d with
    | .error e => .error e
    | .ok (done, f) =>
      match runPass ctx co checks rest with
      | .error e => .error e
      | .ok (rest', f') => .ok ((if done then rest' else d :: rest'), f ++ f')

/-- Outcome of a fuel-bounded run of `WaitDealStates`: `sleeps` counts
executed `time.Sleep(time.Second / 2)` calls, `passes` counts completed
passes, `fires` the callbacks fired by `DealOn` checks. -/
inductive WaitResult where
  | done (sleeps passes : Nat) (fires : List Nat)
  | fatal (e : FatalError) (sleeps passes : Nat)
  | outOfFuel (todo : List Cid) (sleeps passes : Nat)
  deriving DecidableEq, Repr

/-- The loop of `WaitDealStates`, run on fuel.  The collaborator world may change
between passes (`collabAt i` is the world seen by pass `i`).  Mirrors
`for len(todo) > 0 { pass; time.Sleep(time.Second / 2) }`: the sleep
follows every completed pass, and the emptiness of `todo` is re-checked
only afterwards. -/
def waitDealStates (ctx : Ctx) (collabAt : Nat → Collab)
    (checks : List DealStateCheck) :
    Nat → Nat → Nat → Nat → List Nat → List Cid → WaitResult
  | _, _, sleeps, passes, fires, [] => .done sleeps passes fires
  | 0, _, sleeps, passes, _, d :: ds => .outOfFuel (d :: ds) sleeps passes
  | fuel + 1, i, sleeps, passes, fires, d :: ds =>
    match runPass ctx (collabAt i) checks (d :: ds) with
    | .error e => .fatal e sleeps passes
    | .ok (todo', f) =>
      waitDealStates ctx collabAt checks fuel (i + 1) (sleeps + 1)
        (passes + 1) (fires ++ f) todo'

/-- Entry point of the polling converger: run from pass `0` with empty
accumulators, as `WaitDealStates(ctx, deals, stateChecks...)` does. -/
def waitDealStatesRun (ctx : Ctx) (collabAt : Nat → Collab)
    (checks : List DealStateCheck) (fuel : Nat) (deals : List Cid) :
    WaitResult :=
  waitDealStates ctx collabAt checks fuel 0 0 0 [] deals

/-- An observable event at the multiplexed receive of
`WaitDealPublished`: either the context's done signal fires, or the
subscription delivers an update. -/
inductive DealEvent where
  | ctxDone
  | update (md : MinerDeal)
  deriving DecidableEq, Repr

/-- Outcome of `WaitDealPublished` on a finite event sequence: returned
normally, aborted fatally, or still waiting for further events. -/
inductive PublishResult where
  | complete
  | fatal (e : FatalError)
  | pending
  deriving DecidableEq, Repr

/-- The loop of `WaitDealPublished`, driven by the sequence of events its
`select` observes: updates not matching the target proposal cid are ignored, a
matching fatal state aborts, a matching state in
{Finalizing, AwaitingPreCommit, Sealing, Active} returns, other matching
states are logged and the wait continues, and the context's done signal
aborts with the timeout classification. -/
def waitDealPublished (deal : Cid) : List DealEvent → PublishResult
  | [] => .pending
  | .ctxDone :: _ => .fatal .timeout
  | .update md :: rest =>
    if md.ProposalCid = deal then
      match md.State with
      | .StorageDealProposalRejected => .fatal .rejected
      | .StorageDealFailing => .fatal .failing
      | .StorageDealError => .fatal (.errored md.Message)
      | .StorageDealFinalizing => .complete
      | .StorageDealAwaitingPreCommit => .complete
      | .StorageDealSealing => .complete
      | .StorageDealActive => .complete
      | _ => waitDealPublished deal rest
    else waitDealPublished deal rest

/-- The fatal-state classification shared by `DealState` and
`WaitDealPublished`: `some` exactly on the FatalState set
{ProposalRejected, Failing, Error}. -/
def classifyFatal (st : StorageDealStatus) (msg : String) :
    Option FatalError :=
  match st with
  | .StorageDealProposalRejected => some .rejected
  | .StorageDealFailing => some .failing
  | .StorageDealError => some (.errored msg)
  | _ => none

/-- The success-terminal states of `WaitDealPublished`. -/
def publishedStates : List StorageDealStatus :=
  [.StorageDealFinalizing, .StorageDealAwaitingPreCommit,
   .StorageDealSealing, .StorageDealActive]

/-- A collaborator whose query results do not depend on the context it is
handed (queries keep succeeding identically after cancellation). -/
def ctxIndep (co : Collab) : Prop :=
  (∀ c c' d, co.clientGetDealInfo c d = co.clientGetDealInfo c' d) ∧
  (∀ c c', co.sectorsList c = co.sectorsList c') ∧
  (∀ c c' s, co.sectorsStatus c s = co.sectorsStatus c' s)

/-- The maximum of a list of naturals (used to name the pass in which the
last tracked identity converges). -/
def listMax (l : List Nat) : Nat := l.foldr max 0

/-- Scenario: a collaborator whose deal stays in `Sealing` forever; its
results ignore the context entirely. -/
def coStuck : Collab where
  clientGetDealInfo := fun _ _ => ⟨.StorageDealSealing, "", 11⟩
  sectorsList := fun _ => []
  sectorsStatus := fun _ _ => ⟨"", []⟩

/-- Scenario: a collaborator whose deal is already `Active`; an empty
sector listing keeps the correlation at the sentinel. -/
def coActive : Collab where
  clientGetDealInfo := fun _ _ => ⟨.StorageDealActive, "", 11⟩
  sectorsList := fun _ => []
  sectorsStatus := fun _ _ => ⟨"", []⟩

/-- Scenario: a collaborator whose deal has hit the fatal `Error` state;
the sector listing is empty, so a `DealSectorState` check sees the
sentinel and returns `false`. -/
def coError : Collab where
  clientGetDealInfo := fun _ _ => ⟨.StorageDealError, "boom", 11⟩
  sectorsList := fun _ => []
  sectorsStatus := fun _ _ => ⟨"", []⟩

/-- Scenario: two tracked deals, `5` progressing through `Sealing` and `7`
fatally errored. -/
def coTwoDeals : Collab where
  clientGetDealInfo := fun _ d =>
    if d = 7 then ⟨.StorageDealError, "boom", 7⟩ else ⟨.StorageDealSealing, "", 5⟩
  sectorsList := fun _ => []
  sectorsStatus := fun _ _ => ⟨"", []⟩

/-- Scenario: deal id `42` is contained in the sector numbered `0`, whose
state is `Proving`. -/
def coSectorZero : Collab where
  clientGetDealInfo := fun _ _ => ⟨.StorageDealSealing, "", 42⟩
  sectorsList := fun _ => [0]
  sectorsStatus := fun _ s => if s = 0 then ⟨"Proving", [42]⟩ else ⟨"", []⟩

/-- Scenario: deal id `42` is contained in sector `3`, whose state is
`Proving`. -/
def coSectorThree : Collab where
  clientGetDealInfo := fun _ _ => ⟨.StorageDealSealing, "", 42⟩
  sectorsList := fun _ => [3]
  sectorsStatus := fun _ s => if s = 3 then ⟨"Proving", [42]⟩ else ⟨"", []⟩

/-- Scenario: a time-varying world in which the tracked deal is `Sealing`
during pass `0` and `Active` from pass `1` on. -/
def coLateActive (i : Nat) : Collab :=
  match i with
  | 0 => coStuck
  | _ + 1 => coActive

/-! ## Basic lemmas about the scan loops -/

lemma statusMem_eq_decide (st : StorageDealStatus) :
    ∀ l : List StorageDealStatus, statusMem st l = decide (st ∈ l) := by
  intro l
  induction l with
  | nil => rfl
  | cons s rest ih =>
    by_cases h : st = s <;> simp [statusMem, h, ih]

lemma dealOnFired_eq_decide (st : StorageDealStatus) :
    ∀ l : List StorageDealStatus, dealOnFired l st = decide (st ∈ l) := by
  intro l
  induction l with
  | nil => rfl
  | cons s rest ih =>
    by_cases h : st = s <;> simp [dealOnFired, h, ih]

lemma listHas_eq_decide (x : Nat) :
    ∀ l : List Nat, listHas l x = decide (x ∈ l) := by
  intro l
  induction l with
  | nil => rfl
  | cons y rest ih =>
    by_cases h : y = x
    · simp [listHas, h]
    · have h' : ¬ x = y := fun hc => h hc.symm
      simp [listHas, h, h', ih]

lemma runDealState_of_mem {expect : List StorageDealStatus} {di : DealInfo}
    (h : di.State ∈ expect) : runDealState expect di = .ok true := by
  simp [runDealState, statusMem_eq_decide, h]

lemma runDealState_of_not_mem {expect : List StorageDealStatus}
    {di : DealInfo} (h : di.State ∉ expect) :
    runDealState expect di
      = match classifyFatal di.State di.Message with
        | some e => .error e
        | none => .ok false := by
  have hb : statusMem di.State expect = false := by
    rw [statusMem_eq_decide]; exact decide_eq_false h
  simp only [runDealState, hb, Bool.false_eq_true, if_false]
  cases di.State <;> rfl

lemma evalCheck_dealState_of_mem {ctx : Ctx} {co : Collab}
    {expect : List StorageDealStatus} {di : DealInfo} {sn : SectorNumber}
    (h : di.State ∈ expect) :
    evalCheck ctx co (.dealState expect) di sn = .ok (true, []) := by
  simp [evalCheck, runDealState_of_mem h]

lemma evalCheck_dealState_of_not_mem_none {ctx : Ctx} {co : Collab}
    {expect : List StorageDealStatus} {di : DealInfo} {sn : SectorNumber}
    (h : di.State ∉ expect) (hc : classifyFatal di.State di.Message = none) :
    evalCheck ctx co (.dealState expect) di sn = .ok (false, []) := by
  simp [evalCheck, runDealState_of_not_mem h, hc]

lemma evalCheck_dealState_of_not_mem_some {ctx : Ctx} {co : Collab}
    {expect : List StorageDealStatus} {di : DealInfo} {sn : SectorNumber}
    {e : FatalError}
    (h : di.State ∉ expect) (hc : classifyFatal di.State di.Message = some e) :
    evalCheck ctx co (.dealState expect) di sn = .error e := by
  simp [evalCheck, runDealState_of_not_mem h, hc]

/-! ## The predicate combinators (claims C5, C6, C7) -/

/-- C5: a `DealState(expect…)` (StateMembership) check returns true iff
the deal's current state is a member of the acceptance set; when the
state is not in the set, a state in the FatalState set
{ProposalRejected, Failing, Error} signals the matching fatal abort
(`errored` carrying the deal's diagnostic message) instead of returning
false, and every state outside the FatalState set yields false. -/
theorem dealState_check_spec (ctx : Ctx) (co : Collab)
    (expect : List StorageDealStatus) (di : DealInfo) (sn : SectorNumber) :
    (evalCheck ctx co (.dealState expect) di sn = .ok (true, []) ↔
      di.State ∈ expect)
    ∧ (di.State ∉ expect →
        (di.State = .StorageDealProposalRejected →
          evalCheck ctx co (.dealState expect) di sn = .error .rejected)
        ∧ (di.State = .StorageDealFailing →
          evalCheck ctx co (.dealState expect) di sn = .error .failing)
        ∧ (di.State = .StorageDealError →
          evalCheck ctx co (.dealState expect) di sn
            = .error (.errored di.Message))
        ∧ (classifyFatal di.State di.Message = none →
          evalCheck ctx co (.dealState expect) di sn = .ok (false, []))) := by
  refine ⟨⟨?_, fun hm => evalCheck_dealState_of_mem hm⟩,
    fun hn => ⟨fun hst => evalCheck_dealState_of_not_mem_some hn (by rw [hst]; rfl),
      fun hst => evalCheck_dealState_of_not_mem_some hn (by rw [hst]; rfl),
      fun hst => evalCheck_dealState_of_not_mem_some hn (by rw [hst]; rfl),
      fun hcf => evalCheck_dealState_of_not_mem_none hn hcf⟩⟩
  intro h
  by_cases hm : di.State ∈ expect
  · exact hm
  · exfalso
    cases hcf : classifyFatal di.State di.Message with
    | none =>
      rw [evalCheck_dealState_of_not_mem_none hm hcf] at h
      exact absurd h (by simp)
    | some e =>
      rw [evalCheck_dealState_of_not_mem_some hm hcf] at h
      exact absurd h (by simp)

/-- Closed instance of `dealState_check_spec`: a `Sealing` deal is neither
accepted by `DealState(Active)` nor fatal, so the check returns false. -/
theorem dealState_check_spec_witness :
    evalCheck ⟨false⟩ coStuck (.dealState [.StorageDealActive])
      ⟨.StorageDealSealing, "", 1⟩ 0 = .ok (false, []) :=
  ((dealState_check_spec ⟨false⟩ coStuck [.StorageDealActive]
      ⟨.StorageDealSealing, "", 1⟩ 0).2 (by decide)).2.2.2 (by decide)

/-- C6: a `DealOn(cb, states…)` (SideEffectOnStates) check always returns
true, and fires its callback exactly once in an evaluation iff the deal's
current state is in its configured state set. -/
theorem dealOn_check_spec (ctx : Ctx) (co : Collab) (cb : Nat)
    (states : List StorageDealStatus) (di : DealInfo) (sn : SectorNumber) :
    evalCheck ctx co (.dealOn cb states) di sn
      = .ok (true, if di.State ∈ states then [cb] else []) := by
  by_cases h : di.State ∈ states <;>
    simp [evalCheck, dealOnFired_eq_decide, h]

/-- C7: a `DealSectorState(expect)` (SectorStateMembership) check returns
false at the sentinel sector number `0` regardless of the deal snapshot,
and at a nonzero sector number it returns true iff the queried sector's
state equals the target. -/
theorem dealSectorState_check_spec (ctx : Ctx) (co : Collab)
    (expect : String) (di : DealInfo) (sn : SectorNumber) :
    (sn = 0 →
      evalCheck ctx co (.dealSectorState expect) di sn = .ok (false, []))
    ∧ (sn ≠ 0 →
      evalCheck ctx co (.dealSectorState expect) di sn
        = .ok (decide ((co.sectorsStatus ctx sn).State = expect), []))
    ∧ (sn ≠ 0 →
      (evalCheck ctx co (.dealSectorState expect) di sn = .ok (true, []) ↔
        (co.sectorsStatus ctx sn).State = expect)) := by
  refine ⟨fun h => by simp [evalCheck, runDealSectorState, h],
    fun h => by simp [evalCheck, runDealSectorState, h], fun h => ?_⟩
  by_cases he : (co.sectorsStatus ctx sn).State = expect <;>
    simp [evalCheck, runDealSectorState, h, he]

/-- Closed instance of `dealSectorState_check_spec`: at the sentinel the
check is false even though sector 3 matches; at sector 3 it is true. -/
theorem dealSectorState_check_spec_witness :
    evalCheck ⟨false⟩ coSectorThree (.dealSectorState "Proving")
      ⟨.StorageDealSealing, "", 42⟩ 0 = .ok (false, [])
    ∧ evalCheck ⟨false⟩ coSectorThree (.dealSectorState "Proving")
      ⟨.StorageDealSealing, "", 42⟩ 3 = .ok (true, []) :=
  ⟨(dealSectorState_check_spec ⟨false⟩ coSectorThree "Proving"
      ⟨.StorageDealSealing, "", 42⟩ 0).1 rfl,
   ((dealSectorState_check_spec ⟨false⟩ coSectorThree "Proving"
      ⟨.StorageDealSealing, "", 42⟩ 3).2.2 (by decide)).mpr (by decide)⟩

/-! ## The correlation lookup (claims C8, C10) -/

/-- C8: the correlation scan returns the first listed sector whose
contained-deal-identity set includes the target deal id, and the sentinel
`0` if no listed sector contains it. -/
theorem findDealSector_spec (ctx : Ctx) (co : Collab)
    (sl : List SectorNumber) (dealId : Nat) :
    findDealSector ctx co sl dealId
      = ((sl.find? fun s =>
          decide (dealId ∈ (co.sectorsStatus ctx s).Deals)).getD 0) := by
  induction sl with
  | nil => rfl
  | cons s rest ih =>
    by_cases h : dealId ∈ (co.sectorsStatus ctx s).Deals
    · simp [findDealSector, listHas_eq_decide, List.find?_cons, h]
    · simp [findDealSector, listHas_eq_decide, List.find?_cons, h, ih]

lemma findDealSector_eq_zero (ctx : Ctx) (co : Collab) (dealId : Nat) :
    ∀ sl : List SectorNumber,
      (∀ s ∈ sl, dealId ∈ (co.sectorsStatus ctx s).Deals → s = 0) →
      findDealSector ctx co sl dealId = 0 := by
  intro sl
  induction sl with
  | nil => intro _; rfl
  | cons s rest ih =>
    intro h
    by_cases hm : dealId ∈ (co.sectorsStatus ctx s).Deals
    · have hs : s = 0 := h s (by simp) hm
      subst hs
      simp [findDealSector, listHas_eq_decide, hm]
    · simp [findDealSector, listHas_eq_decide, hm,
        ih fun s' hs' => h s' (by simp [hs'])]

/-- C10: the "none" sentinel of the correlation lookup is the sector
number `0`, so for a deal contained (only) in the sector numbered `0`
the lookup is indistinguishable from "no correlated sector", and a
`DealSectorState` check on the looked-up sector returns false even when
sector `0`'s state equals the target. -/
theorem sectorZero_sentinel_collision (ctx : Ctx) (co : Collab)
    (dealId : Nat) (target : String) (di : DealInfo)
    (hin : dealId ∈ (co.sectorsStatus ctx 0).Deals)
    (honly : ∀ s ∈ co.sectorsList ctx,
      dealId ∈ (co.sectorsStatus ctx s).Deals → s = 0)
    (hstate : (co.sectorsStatus ctx 0).State = target) :
    findDealSector ctx co (co.sectorsList ctx) dealId = 0
    ∧ evalCheck ctx co (.dealSectorState target) di
        (findDealSector ctx co (co.sectorsList ctx) dealId)
      = .ok (false, []) := by
  have h0 := findDealSector_eq_zero ctx co dealId (co.sectorsList ctx) honly
  exact ⟨h0, by rw [h0]; simp [evalCheck, runDealSectorState]⟩

/-- Closed instance of `sectorZero_sentinel_collision`: deal 42 sits in
sector 0, sector 0 is `Proving`, the check for `Proving` is still false. -/
theorem sectorZero_sentinel_collision_witness :
    findDealSector ⟨false⟩ coSectorZero (coSectorZero.sectorsList ⟨false⟩) 42 = 0
    ∧ evalCheck ⟨false⟩ coSectorZero (.dealSectorState "Proving")
        ⟨.StorageDealSealing, "", 42⟩
        (findDealSector ⟨false⟩ coSectorZero (coSectorZero.sectorsList ⟨false⟩) 42)
      = .ok (false, []) :=
  sectorZero_sentinel_collision ⟨false⟩ coSectorZero 42 "Proving"
    ⟨.StorageDealSealing, "", 42⟩ (by decide)
    (by intro s hs _; simpa [coSectorZero] using hs) rfl

/-! ## The event-driven converger (claim C4) -/

/-- C4: `WaitDealPublished` ignores updates whose proposal cid does not
match the target; a matching update in a FatalState aborts with the
matching classification; a matching update in
{Finalizing, AwaitingPreCommit, Sealing, Active} completes the wait;
any other matching update leaves the wait continuing; and the context's
done signal aborts with the timeout classification. -/
theorem waitDealPublished_spec (deal : Cid) (md : MinerDeal)
    (rest : List DealEvent) :
    (md.ProposalCid ≠ deal →
      waitDealPublished deal (.update md :: rest)
        = waitDealPublished deal rest)
    ∧ (md.ProposalCid = deal →
        (md.State = .StorageDealProposalRejected →
          waitDealPublished deal (.update md :: rest) = .fatal .rejected)
        ∧ (md.State = .StorageDealFailing →
          waitDealPublished deal (.update md :: rest) = .fatal .failing)
        ∧ (md.State = .StorageDealError →
          waitDealPublished deal (.update md :: rest)
            = .fatal (.errored md.Message))
        ∧ (md.State ∈ publishedStates →
          waitDealPublished deal (.update md :: rest) = .complete)
        ∧ (classifyFatal md.State md.Message = none →
            md.State ∉ publishedStates →
          waitDealPublished deal (.update md :: rest)
            = waitDealPublished deal rest))
    ∧ waitDealPublished deal (.ctxDone :: rest) = .fatal .timeout := by
  obtain ⟨pc, st, msg⟩ := md
  refine ⟨fun h => ?_, fun h => ?_, rfl⟩
  · simp only [waitDealPublished]
    rw [if_neg h]
  · subst h
    refine ⟨fun hs => ?_, fun hs => ?_, fun hs => ?_, fun hs => ?_,
      fun h1 h2 => ?_⟩
    · subst hs; simp [waitDealPublished]
    · subst hs; simp [waitDealPublished]
    · subst hs; simp [waitDealPublished]
    · fin_cases hs <;> simp [waitDealPublished]
    · cases st <;>
        simp_all [waitDealPublished, classifyFatal, publishedStates]

/-- Closed instances of `waitDealPublished_spec`: a non-matching update is
skipped, a matching `Active` completes, a matching `Error` aborts with
the message, the done signal aborts with timeout. -/
theorem waitDealPublished_spec_witness :
    (waitDealPublished 1 [.update ⟨2, .StorageDealActive, ""⟩]
      = waitDealPublished 1 [])
    ∧ waitDealPublished 1 [.update ⟨1, .StorageDealActive, ""⟩] = .complete
    ∧ waitDealPublished 1 [.update ⟨1, .StorageDealError, "oops"⟩]
      = .fatal (.errored "oops")
    ∧ waitDealPublished 1 [.ctxDone] = .fatal .timeout :=
  ⟨(waitDealPublished_spec 1 ⟨2, .StorageDealActive, ""⟩ []).1 (by decide),
   ((waitDealPublished_spec 1 ⟨1, .StorageDealActive, ""⟩ []).2.1 rfl).2.2.2.1
     (by decide),
   ((waitDealPublished_spec 1 ⟨1, .StorageDealError, "oops"⟩ []).2.1 rfl).2.2.1
     rfl,
   (waitDealPublished_spec 1 ⟨99, .StorageDealUnknown, ""⟩ []).2.2⟩

/-! ## The polling converger -/

lemma waitDealStates_nil (ctx : Ctx) (collabAt : Nat → Collab)
    (checks : List DealStateCheck) (fuel i s q : Nat) (f : List Nat) :
    waitDealStates ctx collabAt checks fuel i s q f [] = .done s q f := by
  cases fuel <;> rfl

lemma waitDealStates_cons (ctx : Ctx) (collabAt : Nat → Collab)
    (checks : List DealStateCheck) (g i s q : Nat) (f : List Nat)
    (d : Cid) (ds : List Cid) :
    waitDealStates ctx collabAt checks (g + 1) i s q f (d :: ds)
      = match runPass ctx (collabAt i) checks (d :: ds) with
        | .error e => .fatal e s q
        | .ok (todo', fs) =>
          waitDealStates ctx collabAt checks g (i + 1) (s + 1) (q + 1)
            (f ++ fs) todo' := rfl

lemma waitDealStates_cons_ok {ctx : Ctx} {collabAt : Nat → Collab}
    {checks : List DealStateCheck} {i : Nat} {d : Cid} {ds todo' : List Cid}
    {fs : List Nat}
    (h : runPass ctx (collabAt i) checks (d :: ds) = .ok (todo', fs))
    (g s q : Nat) (f : List Nat) :
    waitDealStates ctx collabAt checks (g + 1) i s q f (d :: ds)
      = waitDealStates ctx collabAt checks g (i + 1) (s + 1) (q + 1)
          (f ++ fs) todo' := by
  rw [waitDealStates_cons, h]

lemma waitDealStates_cons_err {ctx : Ctx} {collabAt : Nat → Collab}
    {checks : List DealStateCheck} {i : Nat} {d : Cid} {ds : List Cid}
    {e : FatalError}
    (h : runPass ctx (collabAt i) checks (d :: ds) = .error e)
    (g s q : Nat) (f : List Nat) :
    waitDealStates ctx collabAt checks (g + 1) i s q f (d :: ds)
      = .fatal e s q := by
  rw [waitDealStates_cons, h]

lemma listMax_le {l : List Nat} {m : Nat} :
    listMax l ≤ m ↔ ∀ x ∈ l, x ≤ m := by
  induction l with
  | nil => simp [listMax]
  | cons a l ih =>
    show max a (listMax l) ≤ m ↔ _
    rw [Nat.max_le, ih, List.forall_mem_cons]

lemma le_listMax_of_mem {l : List Nat} {x : Nat} (h : x ∈ l) :
    x ≤ listMax l := by
  induction l with
  | nil => simp at h
  | cons a l ih =>
    show x ≤ max a (listMax l)
    rcases List.mem_cons.mp h with rfl | h'
    · exact le_max_left _ _
    · exact le_trans (ih h') (le_max_right _ _)

lemma runPass_profile (ctx : Ctx) (co : Collab) (checks : List DealStateCheck)
    (p : Cid → Nat) (i : Nat) :
    ∀ todo : List Cid,
      (∀ d ∈ todo, ∃ f,
        processDeal ctx co checks d = .ok (decide (p d ≤ i), f)) →
      ∃ f, runPass ctx co checks todo
        = .ok (todo.filter fun d => decide (i < p d), f) := by
  intro todo
  induction todo with
  | nil => intro _; exact ⟨[], rfl⟩
  | cons d rest ih =>
    intro h
    obtain ⟨fd, hd⟩ := h d (by simp)
    obtain ⟨fr, hr⟩ := ih fun d' hd' => h d' (by simp [hd'])
    refine ⟨fd ++ fr, ?_⟩
    by_cases hpd : p d ≤ i
    · have hlt : ¬ i < p d := by omega
      simp [runPass, hd, hr, hpd, hlt, List.filter_cons]
    · have hlt : i < p d := by omega
      simp [runPass, hd, hr, hpd, hlt, List.filter_cons]

lemma filter_pending_step (deals : List Cid) (p : Cid → Nat) (i : Nat) :
    ((deals.filter fun d => decide (i ≤ p d)).filter
        fun d => decide (i < p d))
      = deals.filter fun d => decide (i + 1 ≤ p d) := by
  rw [List.filter_filter]
  apply List.filter_congr
  intro d _
  by_cases hlt : i < p d
  · have h2 : i ≤ p d := by omega
    have h3 : i + 1 ≤ p d := by omega
    simp [hlt, h2, h3]
  · have h3 : ¬ (i + 1 ≤ p d) := by omega
    simp [hlt, h3]

lemma waitDealStates_converges (ctx : Ctx) (collabAt : Nat → Collab)
    (checks : List DealStateCheck) (deals : List Cid) (p : Cid → Nat)
    (H : ∀ d ∈ deals, ∀ i, ∃ f,
        processDeal ctx (collabAt i) checks d = .ok (decide (p d ≤ i), f))
    (hne : deals ≠ []) :
    ∀ fuel i sleeps passes fires,
      listMax (deals.map p) + 1 ≤ i + fuel →
      ∃ f, waitDealStates ctx collabAt checks fuel i sleeps passes fires
          (deals.filter fun d => decide (i ≤ p d))
        = .done (sleeps + (listMax (deals.map p) + 1 - i))
            (passes + (listMax (deals.map p) + 1 - i)) f := by
  intro fuel
  induction fuel with
  | zero =>
    intro i sleeps passes fires hle
    have hemp : (deals.filter fun d => decide (i ≤ p d)) = [] := by
      rw [List.filter_eq_nil_iff]
      intro d hd
      have hpd : p d ≤ listMax (deals.map p) :=
        le_listMax_of_mem (List.mem_map_of_mem p hd)
      simp only [decide_eq_true_eq]
      omega
    have h0 : listMax (deals.map p) + 1 - i = 0 := by omega
    rw [hemp, h0]
    exact ⟨fires, by simp [waitDealStates_nil]⟩
  | succ g ih =>
    intro i sleeps passes fires hle
    rcases hfil : (deals.filter fun d => decide (i ≤ p d)) with _ | ⟨d0, ds⟩
    · have hall : ∀ d ∈ deals, ¬ (i ≤ p d) := by
        intro d hd hcon
        have hmem : d ∈ deals.filter fun d => decide (i ≤ p d) :=
          List.mem_filter.mpr ⟨hd, by simpa using hcon⟩
        rw [hfil] at hmem
        simp at hmem
      obtain ⟨d0, hd0⟩ := List.exists_mem_of_ne_nil deals hne
      have hi1 : 1 ≤ i := by have := hall d0 hd0; omega
      have hMle : listMax (deals.map p) ≤ i - 1 := by
        rw [listMax_le]
        intro x hx
        obtain ⟨d, hd, rfl⟩ := List.mem_map.mp hx
        have := hall d hd
        omega
      have h0 : listMax (deals.map p) + 1 - i = 0 := by omega
      rw [h0]
      exact ⟨fires, by simp [waitDealStates_nil]⟩
    · have hd0mem : d0 ∈ deals.filter fun d => decide (i ≤ p d) := by
        rw [hfil]; simp
      have hd0d : d0 ∈ deals := (List.mem_filter.mp hd0mem).1
      have hip : i ≤ p d0 := by
        have := (List.mem_filter.mp hd0mem).2
        simpa using this
      have hiM : i ≤ listMax (deals.map p) :=
        le_trans hip (le_listMax_of_mem (List.mem_map_of_mem p hd0d))
      obtain ⟨f, hpass⟩ := runPass_profile ctx (collabAt i) checks p i
        (deals.filter fun d => decide (i ≤ p d))
        (fun d hd => H d (List.mem_filter.mp hd).1 i)
      have hpass' : runPass ctx (collabAt i) checks (d0 :: ds)
          = .ok (deals.filter fun d => decide (i + 1 ≤ p d), f) := by
        rw [← hfil, hpass, filter_pending_step]
      obtain ⟨f', hrec⟩ :=
        ih (i + 1) (sleeps + 1) (passes + 1) (fires ++ f) (by omega)
      refine ⟨f', ?_⟩
      rw [waitDealStates_cons_ok hpass', hrec]
      have e1 : sleeps + 1 + (listMax (deals.map p) + 1 - (i + 1))
          = sleeps + (listMax (deals.map p) + 1 - i) := by omega
      have e2 : passes + 1 + (listMax (deals.map p) + 1 - (i + 1))
          = passes + (listMax (deals.map p) + 1 - i) := by omega
      rw [e1, e2]

/-- C2: for a non-empty set of distinct tracked identities whose deal
snapshots stay non-fatal and, identity by identity (`p d` is the pass
from which identity `d` satisfies every supplied check), converge within
`K` passes, `WaitDealStates` returns without error, it runs exactly
`listMax (deals.map p) + 1` passes — i.e. no fewer than needed for the
last identity — and each pass removes from the pending set exactly the
identities whose checks all returned true during that pass. -/
theorem waitDealStates_converges_spec (ctx : Ctx) (collabAt : Nat → Collab)
    (checks : List DealStateCheck) (deals : List Cid) (p : Cid → Nat)
    (K : Nat) (hne : deals ≠ []) (hnd : deals.Nodup)
    (hK : ∀ d ∈ deals, p d ≤ K)
    (H : ∀ d ∈ deals, ∀ i, ∃ f,
        processDeal ctx (collabAt i) checks d = .ok (decide (p d ≤ i), f))
    (fuel : Nat) (hfuel : K + 1 ≤ fuel) :
    (∃ f, waitDealStatesRun ctx collabAt checks fuel deals
        = .done (listMax (deals.map p) + 1) (listMax (deals.map p) + 1) f)
    ∧ ∀ i, ∃ f, runPass ctx (collabAt i) checks
          (deals.filter fun d => decide (i ≤ p d))
        = .ok ((deals.filter fun d => decide (i + 1 ≤ p d)), f) := by
  constructor
  · have hMK : listMax (deals.map p) ≤ K := by
      rw [listMax_le]
      intro x hx
      obtain ⟨d, hd, rfl⟩ := List.mem_map.mp hx
      exact hK d hd
    have h0 : (deals.filter fun d => decide (0 ≤ p d)) = deals :=
      List.filter_eq_self.mpr fun d _ => by simp
    obtain ⟨f, hf⟩ := waitDealStates_converges ctx collabAt checks deals p H
      hne fuel 0 0 0 [] (by omega)
    rw [h0] at hf
    exact ⟨f, by simpa [waitDealStatesRun] using hf⟩
  · intro i
    obtain ⟨f, hpass⟩ := runPass_profile ctx (collabAt i) checks p i
      (deals.filter fun d => decide (i ≤ p d))
      (fun d hd => H d (List.mem_filter.mp hd).1 i)
    exact ⟨f, by rw [hpass, filter_pending_step]⟩

/-- Closed instance of `waitDealStates_converges_spec`: one deal that is
`Sealing` at pass 0 and `Active` from pass 1 converges with no error in
exactly 2 passes. -/
theorem waitDealStates_converges_spec_witness :
    ∃ f, waitDealStatesRun ⟨false⟩ coLateActive
        [.dealState [.StorageDealActive]] 2 [1] = .done 2 2 f :=
  (waitDealStates_converges_spec ⟨false⟩ coLateActive
    [.dealState [.StorageDealActive]] [1] (fun _ => 1) 1 (by decide)
    (by decide) (fun d _ => Nat.le_refl 1)
    (fun d _ i => by
      cases i with
      | zero => exact ⟨[], rfl⟩
      | succ n =>
        refine ⟨[], ?_⟩
        have h1 : decide (1 ≤ n + 1) = true :=
          decide_eq_true (Nat.succ_le_succ (Nat.zero_le n))
        rw [h1]
        rfl)
    2 (by decide)).1

/-- Counterexample to C3 as stated: a run whose single pass empties the
pending set still performs one sleep (the result records one sleep for
one pass), where the claim requires zero sleeps. -/
theorem waitDealStates_sleep_counterexample :
    waitDealStatesRun ⟨false⟩ (fun _ => coActive)
      [.dealState [.StorageDealActive]] 1 [1] = .done 1 1 []
    ∧ waitDealStatesRun ⟨false⟩ (fun _ => coActive)
      [.dealState [.StorageDealActive]] 1 [1] ≠ .done 0 1 [] :=
  ⟨by decide, by decide⟩

/-- C3 (amended): the fixed 500 ms sleep is performed after every
complete pass — including the pass that empties the pending set — so a
successful wait that executed `n` passes slept exactly `n` times (and at
least once); it does not skip the sleep after the final pass. -/
theorem waitDealStates_sleep_every_pass (ctx : Ctx)
    (collabAt : Nat → Collab) (checks : List DealStateCheck)
    (deals : List Cid) (p : Cid → Nat) (K : Nat)
    (hne : deals ≠ []) (hK : ∀ d ∈ deals, p d ≤ K)
    (H : ∀ d ∈ deals, ∀ i, ∃ f,
        processDeal ctx (collabAt i) checks d = .ok (decide (p d ≤ i), f))
    (fuel : Nat) (hfuel : K + 1 ≤ fuel) :
    ∃ f n, waitDealStatesRun ctx collabAt checks fuel deals = .done n n f
      ∧ 1 ≤ n := by
  have hMK : listMax (deals.map p) ≤ K := by
    rw [listMax_le]
    intro x hx
    obtain ⟨d, hd, rfl⟩ := List.mem_map.mp hx
    exact hK d hd
  have h0 : (deals.filter fun d => decide (0 ≤ p d)) = deals :=
    List.filter_eq_self.mpr fun d _ => by simp
  obtain ⟨f, hf⟩ := waitDealStates_converges ctx collabAt checks deals p H
    hne fuel 0 0 0 [] (by omega)
  rw [h0] at hf
  exact ⟨f, listMax (deals.map p) + 1,
    by simpa [waitDealStatesRun] using hf, by omega⟩

/-- Closed instance of `waitDealStates_sleep_every_pass`: the
immediately-satisfied deal still costs one sleep for its one pass. -/
theorem waitDealStates_sleep_every_pass_witness :
    ∃ f n, waitDealStatesRun ⟨false⟩ (fun _ => coActive)
        [.dealState [.StorageDealActive]] 1 [1] = .done n n f ∧ 1 ≤ n :=
  waitDealStates_sleep_every_pass ⟨false⟩ (fun _ => coActive)
    [.dealState [.StorageDealActive]] [1] (fun _ => 0) 0 (by decide)
    (fun d _ => Nat.le_refl 0)
    (fun d _ i => ⟨[], by
      have h1 : decide (0 ≤ i) = true := decide_eq_true (Nat.zero_le i)
      rw [h1]
      rfl⟩)
    1 (by decide)

/-! ## Fatal-state abort in the polling converger (claim C1) -/

lemma evalChecks_fatal_after_true (ctx : Ctx) (co : Collab) (di : DealInfo)
    (sn : SectorNumber) (expect : List StorageDealStatus)
    (post : List DealStateCheck) (e : FatalError)
    (hcf : classifyFatal di.State di.Message = some e)
    (hnm : di.State ∉ expect) :
    ∀ pre : List DealStateCheck,
      (∀ c ∈ pre, ∃ f, evalCheck ctx co c di sn = .ok (true, f)) →
      evalChecks ctx co (pre ++ DealStateCheck.dealState expect :: post)
        di sn = .error e := by
  intro pre
  induction pre with
  | nil =>
    intro _
    simp [evalChecks, evalCheck_dealState_of_not_mem_some hnm hcf]
  | cons c pre ih =>
    intro h
    obtain ⟨f, hc⟩ := h c (by simp)
    have hrest := ih fun c' hc' => h c' (by simp [hc'])
    simp [evalChecks, hc, hrest]

lemma runPass_fatal_at (ctx : Ctx) (co : Collab)
    (checks : List DealStateCheck) (d : Cid) (e : FatalError)
    (hd : processDeal ctx co checks d = .error e) :
    ∀ todo : List Cid, d ∈ todo →
      (∀ d' ∈ todo, d' ≠ d → ∃ r, processDeal ctx co checks d' = .ok r) →
      runPass ctx co checks todo = .error e := by
  intro todo
  induction todo with
  | nil => intro h _; simp at h
  | cons x rest ih =>
    intro hmem hoth
    by_cases hx : x = d
    · subst hx
      simp [runPass, hd]
    · obtain ⟨r, hr⟩ := hoth x (by simp) hx
      obtain ⟨rb, rf⟩ := r
      have hdrest : d ∈ rest := by
        rcases List.mem_cons.mp hmem with h | h
        · exact absurd h.symm hx
        · exact h
      have hrp := ih hdrest fun d' hd' hne => hoth d' (by simp [hd']) hne
      simp [runPass, hr, hrp]

/-- Counterexample to C1 as stated: the single tracked identity's
snapshot is in the FatalState `Error` at every pass, yet after three full
passes the wait has neither aborted nor finished — the fatal state is
never classified, because the preceding `DealSectorState` check returned
false and broke the conjunction before the `DealState` check ran.  So
the abort is not independent of the results of the other checks. -/
theorem waitDealStates_fatal_shadowed_counterexample :
    (coError.clientGetDealInfo ⟨false⟩ 1).State = .StorageDealError
    ∧ waitDealStatesRun ⟨false⟩ (fun _ => coError)
        [.dealSectorState "Proving", .dealState [.StorageDealActive]] 3 [1]
      = .outOfFuel [1] 3 3 :=
  ⟨rfl, by decide⟩

/-- C1 (amended): if a tracked identity's fetched snapshot is in a
FatalState during a pass and every check placed before the `DealState`
check in the supplied conjunction returns true for that identity in that
pass, the whole wait aborts during that pass with the matching
classified error, independent of the progress of the other tracked
identities (whose own evaluations merely complete without a fatal
signal). -/
theorem waitDealStates_fatal_abort (ctx : Ctx) (collabAt : Nat → Collab)
    (pre post : List DealStateCheck) (expect : List StorageDealStatus)
    (deals : List Cid) (d : Cid) (e : FatalError) (fuel : Nat)
    (hd : d ∈ deals)
    (hcf : classifyFatal ((collabAt 0).clientGetDealInfo ctx d).State
        ((collabAt 0).clientGetDealInfo ctx d).Message = some e)
    (hnm : ((collabAt 0).clientGetDealInfo ctx d).State ∉ expect)
    (hpre : ∀ c ∈ pre, ∃ f,
        evalCheck ctx (collabAt 0) c ((collabAt 0).clientGetDealInfo ctx d)
          (findDealSector ctx (collabAt 0) ((collabAt 0).sectorsList ctx)
            ((collabAt 0).clientGetDealInfo ctx d).DealID) = .ok (true, f))
    (hoth : ∀ d' ∈ deals, d' ≠ d → ∃ r,
        processDeal ctx (collabAt 0)
          (pre ++ DealStateCheck.dealState expect :: post) d' = .ok r) :
    waitDealStatesRun ctx collabAt
      (pre ++ DealStateCheck.dealState expect :: post) (fuel + 1) deals
      = .fatal e 0 0 := by
  have hpd : processDeal ctx (collabAt 0)
      (pre ++ DealStateCheck.dealState expect :: post) d = .error e :=
    evalChecks_fatal_after_true ctx (collabAt 0) _ _ expect post e hcf hnm
      pre hpre
  have hrp := runPass_fatal_at ctx (collabAt 0) _ d e hpd deals hd hoth
  rcases deals with _ | ⟨d0, ds⟩
  · simp at hd
  · exact waitDealStates_cons_err hrp fuel 0 0 []

/-- Closed instance of `waitDealStates_fatal_abort`: with deal 5 still
`Sealing` and deal 7 in `Error`, a conjunction whose `DealState` check is
preceded by an always-true `DealOn` check aborts in the first pass with
the `errored` classification. -/
theorem waitDealStates_fatal_abort_witness :
    waitDealStatesRun ⟨false⟩ (fun _ => coTwoDeals)
      ([DealStateCheck.dealOn 9 []]
        ++ DealStateCheck.dealState [.StorageDealActive] :: []) 1 [5, 7]
      = .fatal (.errored "boom") 0 0 :=
  waitDealStates_fatal_abort ⟨false⟩ (fun _ => coTwoDeals)
    [DealStateCheck.dealOn 9 []] [] [.StorageDealActive] [5, 7] 7
    (.errored "boom") 0 (by decide) (by decide) (by decide)
    (by
      intro c hc
      simp at hc
      subst hc
      exact ⟨[], rfl⟩)
    (by
      intro d' hd' hne
      rcases (by simpa using hd' : d' = 5 ∨ d' = 7) with h | h
      · subst h
        exact ⟨(false, []), rfl⟩
      · exact absurd h hne)

/-! ## Context-independence of the polling converger (claim C9) -/

lemma findDealSector_ctx_indep {co : Collab} (h : ctxIndep co)
    (c c' : Ctx) (dealId : Nat) :
    ∀ sl, findDealSector c co sl dealId = findDealSector c' co sl dealId := by
  intro sl
  induction sl with
  | nil => rfl
  | cons s rest ih =>
    simp [findDealSector, h.2.2 c c' s, ih]

lemma evalCheck_ctx_indep {co : Collab} (h : ctxIndep co) (c c' : Ctx)
    (ck : DealStateCheck) (di : DealInfo) (sn : SectorNumber) :
    evalCheck c co ck di sn = evalCheck c' co ck di sn := by
  cases ck with
  | dealState e => rfl
  | dealSectorState e => simp [evalCheck, runDealSectorState, h.2.2 c c' sn]
  | dealOn cb st => rfl

lemma evalChecks_ctx_indep {co : Collab} (h : ctxIndep co) (c c' : Ctx)
    (checks : List DealStateCheck) (di : DealInfo) (sn : SectorNumber) :
    evalChecks c co checks di sn = evalChecks c' co checks di sn := by
  induction checks with
  | nil => rfl
  | cons ck rest ih =>
    simp [evalChecks, evalCheck_ctx_indep h c c' ck di sn, ih]

lemma processDeal_ctx_indep {co : Collab} (h : ctxIndep co) (c c' : Ctx)
    (checks : List DealStateCheck) (d : Cid) :
    processDeal c co checks d = processDeal c' co checks d := by
  simp only [processDeal]
  rw [h.1 c c' d, h.2.1 c c',
    findDealSector_ctx_indep h c c' (co.clientGetDealInfo c' d).DealID
      (co.sectorsList c')]
  exact evalChecks_ctx_indep h c c' checks _ _

lemma runPass_ctx_indep {co : Collab} (h : ctxIndep co) (c c' : Ctx)
    (checks : List DealStateCheck) :
    ∀ todo, runPass c co checks todo = runPass c' co checks todo := by
  intro todo
  induction todo with
  | nil => rfl
  | cons d rest ih =>
    simp [runPass, processDeal_ctx_indep h c c' checks d, ih]

lemma waitDealStates_ctx_indep {collabAt : Nat → Collab}
    (hall : ∀ n, ctxIndep (collabAt n)) (c c' : Ctx)
    (checks : List DealStateCheck) :
    ∀ fuel i s q f todo,
      waitDealStates c collabAt checks fuel i s q f todo
        = waitDealStates c' collabAt checks fuel i s q f todo := by
  intro fuel
  induction fuel with
  | zero => intro i s q f todo; cases todo <;> rfl
  | succ g ih =>
    intro i s q f todo
    cases todo with
    | nil => rfl
    | cons d ds =>
      rw [waitDealStates_cons, waitDealStates_cons,
        runPass_ctx_indep (hall i) c c' checks (d :: ds)]
      cases hrp : runPass c' (collabAt i) checks (d :: ds) with
      | error e => rfl
      | ok r =>
        obtain ⟨todo', fs⟩ := r
        exact ih (i + 1) (s + 1) (q + 1) (f ++ fs) todo'

/-- C9: `WaitDealStates` contains no check of its context's cancellation
signal: whenever the collaborators' answers do not depend on the context,
neither does the run's outcome (so a cancelled context behaves exactly
like a live one), and concretely, with any context — cancelled included —
and a collaborator whose stuck deal keeps answering, the wait executes a
pass for every unit of fuel without ever terminating. -/
theorem waitDealStates_ignores_ctx :
    (∀ (collabAt : Nat → Collab) (checks : List DealStateCheck)
      (fuel : Nat) (deals : List Cid) (c c' : Ctx),
      (∀ n, ctxIndep (collabAt n)) →
      waitDealStatesRun c collabAt checks fuel deals
        = waitDealStatesRun c' collabAt checks fuel deals)
    ∧ ∀ (c : Ctx) (fuel : Nat),
      waitDealStatesRun c (fun _ => coStuck)
        [.dealState [.StorageDealActive]] fuel [1]
        = .outOfFuel [1] fuel fuel := by
  constructor
  · intro collabAt checks fuel deals c c' hall
    exact waitDealStates_ctx_indep hall c c' checks fuel 0 0 0 [] deals
  · intro c fuel
    have key : ∀ fuel i s q f,
        waitDealStates c (fun _ => coStuck)
          [.dealState [.StorageDealActive]] fuel i s q f [1]
          = .outOfFuel [1] (s + fuel) (q + fuel) := by
      intro fuel
      induction fuel with
      | zero => intro i s q f; rfl
      | succ g ih =>
        intro i s q f
        have hrp : runPass c coStuck [.dealState [.StorageDealActive]] [1]
            = .ok ([1], []) := rfl
        rw [waitDealStates_cons_ok hrp, ih (i + 1) (s + 1) (q + 1) (f ++ [])]
        congr 1 <;> omega
    have h := key fuel 0 0 0 []
    simpa [waitDealStatesRun] using h

/-- Closed instance of `waitDealStates_ignores_ctx`: two passes with a
cancelled context give the same still-pending outcome as with a live
one. -/
theorem waitDealStates_ignores_ctx_witness :
    waitDealStatesRun ⟨true⟩ (fun _ => coStuck)
      [.dealState [.StorageDealActive]] 2 [1]
      = waitDealStatesRun ⟨false⟩ (fun _ => coStuck)
        [.dealState [.StorageDealActive]] 2 [1]
    ∧ waitDealStatesRun ⟨true⟩ (fun _ => coStuck)
      [.dealState [.StorageDealActive]] 2 [1] = .outOfFuel [1] 2 2 :=
  ⟨waitDealStates_ignores_ctx.1 (fun _ => coStuck)
      [.dealState [.StorageDealActive]] 2 [1] ⟨true⟩ ⟨false⟩
      (fun _ => ⟨fun _ _ _ => rfl, fun _ _ => rfl, fun _ _ _ => rfl⟩),
   waitDealStates_ignores_ctx.2 ⟨true⟩ 2⟩
